import Mathlib

/-!
Verification of the branch-fallback resolution and state-history/revert
subsystem of the git_cli_tool repository, as a shallow embedding in Lean.

Every git subprocess invocation is modelled through a GitRepo oracle that
fixes the answers the external git executable would give for one
invocation, together with an explicit trace of the commands issued.
The control flow of each Go function is translated line by line.
-/

/-- Characters Go strings.TrimSpace removes at either end (ASCII subset of
Unicode white space, which is all git ever emits here). -/
def isSpaceChar (c : Char) : Bool :=
  c = ' ' || c = '\n' || c = '\t' || c = '\r' || c = '\x0b' || c = '\x0c'

/-- Model of Go strings.TrimSpace: drop white space from both ends. -/
def goTrimSpace (s : String) : String :=
  String.mk (((s.toList.dropWhile isSpaceChar).reverse.dropWhile isSpaceChar).reverse)

/-- Substring search on character lists: does the second list occur
contiguously inside the first. -/
def charsContain (needle : List Char) : List Char → Bool
  | [] => needle.isEmpty
  | c :: rest => needle.isPrefixOf (c :: rest) || charsContain needle rest

/-- Model of Go strings.Contains(s, sub). -/
def goContains (s sub : String) : Bool :=
  charsContain sub.toList s.toList

/-- Model of strings.SplitN(line, colon, 2)[0]: the part of the line before
the first colon (the whole line when there is none). -/
def beforeColon (s : String) : String :=
  String.mk (s.toList.takeWhile (fun c => c ≠ ':'))

/-- One git subprocess invocation, as issued by the tool. -/
inductive GitCmd
  | revParseHead
  | showRefLocal (branch : String)
  | showRefRemote (branch : String)
  | checkout (branch : String)
  | checkoutTrack (branch : String)
  | fetch
  | statusPorcelain
  | stashPush (message : String)
  | stashList
  | stashApply (idx : String)
  | stashPop (idx : String)
deriving DecidableEq

/-- A command that checks out a branch (plain checkout or tracking checkout). -/
def isCheckoutCmd : GitCmd → Bool
  | .checkout _ => true
  | .checkoutTrack _ => true
  | _ => false

/-- The branch name a command mentions, when it mentions one. -/
def cmdBranch : GitCmd → Option String
  | .showRefLocal b => some b
  | .showRefRemote b => some b
  | .checkout b => some b
  | .checkoutTrack b => some b
  | _ => none

/-- A stash pop command (never issued by this tool; present so that the
apply-versus-pop distinction is meaningful in the model). -/
def isPopCmd : GitCmd → Bool
  | .stashPop _ => true
  | _ => false

/-- A stash push command. -/
def isStashPushCmd : GitCmd → Bool
  | .stashPush _ => true
  | _ => false

/-- Oracle fixing what the external git executable answers for one
repository during one invocation of the tool. -/
structure GitRepo where
  /-- the path contains a .git directory -/
  isRepo : Bool
  /-- git rev-parse --abbrev-ref HEAD exits 0 -/
  headOk : Bool
  /-- raw combined output of rev-parse (normally the branch plus a newline) -/
  headBranchOutput : String
  /-- branches with a refs/heads ref -/
  localBranches : List String
  /-- branches with a refs/remotes/origin ref -/
  remoteBranches : List String
  /-- show-ref for refs/heads/b fails with an exit code other than 1 -/
  refCheckErr : String → Bool
  /-- show-ref for refs/remotes/origin/b fails with an exit code other than 1 -/
  remoteRefCheckErr : String → Bool
  /-- plain git checkout b exits 0 -/
  checkoutOk : String → Bool
  /-- git checkout -b b --track origin/b exits 0 -/
  trackCheckoutOk : String → Bool
  /-- git fetch exits 0 -/
  fetchOk : Bool
  /-- git status --porcelain exits 0 -/
  statusOk : Bool
  /-- output of git status --porcelain -/
  statusOutput : String
  /-- git stash push exits 0 -/
  stashPushOk : Bool
  /-- git stash list exits 0 -/
  stashListOk : Bool
  /-- lines of git stash list output -/
  stashLines : List String
  /-- git stash apply idx exits 0 -/
  stashApplyOk : String → Bool

/-- A benign repository oracle used as a base for concrete witnesses. -/
def baseRepo : GitRepo where
  isRepo := true
  headOk := true
  headBranchOutput := "main\n"
  localBranches := ["main"]
  remoteBranches := []
  refCheckErr := fun _ => false
  remoteRefCheckErr := fun _ => false
  checkoutOk := fun _ => true
  trackCheckoutOk := fun _ => true
  fetchOk := true
  statusOk := true
  statusOutput := ""
  stashPushOk := true
  stashListOk := true
  stashLines := []
  stashApplyOk := fun _ => true

/-- Prepend already-issued commands to the trace of a continuation. -/
def withTrace (pre : List GitCmd) (p : α × List GitCmd) : α × List GitCmd :=
  (p.1, pre ++ p.2)

/-- GetCurrentBranch (git/branch.go): rev-parse --abbrev-ref HEAD, output
trimmed with strings.TrimSpace; errors when the path is not a repository or
the command fails. -/
def getCurrentBranch (r : GitRepo) : Except String String × List GitCmd :=
  if r.isRepo = false then
    (.error "not a git repository or directory does not exist", [])
  else if r.headOk then
    (.ok (goTrimSpace r.headBranchOutput), [.revParseHead])
  else
    (.error "failed to get current branch", [.revParseHead])

/-- The FromBranch value SwitchBranchWithResult stores: the current branch,
or the empty string when the lookup errors (the error is discarded). -/
def currentBranchOrEmpty (r : GitRepo) : String :=
  match (getCurrentBranch r).1 with
  | .ok s => s
  | .error _ => ""

/-- Error recorded as lastError inside SwitchBranchWithFallback. -/
inductive SwfErr
  | notARepo
  | checkFailed (b : String)
  | checkoutFailed (b : String)
  | fetchFailed
  | remoteCheckFailed (b : String)
  | remoteCheckoutFailed (b : String)
deriving DecidableEq

/-- Result of SwitchBranchWithFallback: the branch landed on (with whether
it came from the remote path), or the terminal failure (wrapping the last
recorded error, or the generic none-exist message when no error was
recorded). -/
inductive SwfOutcome
  | switched (branch : String) (fromRemote : Bool)
  | failedWith (e : SwfErr)
  | failedNone
deriving DecidableEq

/-- Loop of SwitchBranchWithFallback (git/branch.go): per candidate, check
the local ref (a check error records lastError and continues); a local hit
is checked out (checkout failure records lastError and continues); otherwise
fetch (failure records lastError and continues), check the remote ref, and
on a remote hit create a tracking branch, falling back to a plain checkout;
exhaustion returns the last error, or the generic failure. -/
def swfAux (r : GitRepo) : List String → Option SwfErr → SwfOutcome × List GitCmd
  | [], le =>
    (match le with | some e => .failedWith e | none => .failedNone, [])
  | b :: rest, le =>
    if r.refCheckErr b then
      withTrace [.showRefLocal b] (swfAux r rest (some (.checkFailed b)))
    else if b ∈ r.localBranches then
      if r.checkoutOk b then
        (.switched b false, [.showRefLocal b, .checkout b])
      else
        withTrace [.showRefLocal b, .checkout b] (swfAux r rest (some (.checkoutFailed b)))
    else if r.fetchOk = false then
      withTrace [.showRefLocal b, .fetch] (swfAux r rest (some .fetchFailed))
    else if r.remoteRefCheckErr b then
      withTrace [.showRefLocal b, .fetch, .showRefRemote b]
        (swfAux r rest (some (.remoteCheckFailed b)))
    else if b ∈ r.remoteBranches then
      if r.trackCheckoutOk b then
        (.switched b true, [.showRefLocal b, .fetch, .showRefRemote b, .checkoutTrack b])
      else if r.checkoutOk b then
        (.switched b true,
          [.showRefLocal b, .fetch, .showRefRemote b, .checkoutTrack b, .checkout b])
      else
        withTrace [.showRefLocal b, .fetch, .showRefRemote b, .checkoutTrack b, .checkout b]
          (swfAux r rest (some (.remoteCheckoutFailed b)))
    else
      withTrace [.showRefLocal b, .fetch, .showRefRemote b] (swfAux r rest le)

/-- SwitchBranchWithFallback (git/branch.go): repository check, then the
candidate loop with no checkout issued for candidates that match nowhere. -/
def switchBranchWithFallback (r : GitRepo) (branches : List String) :
    SwfOutcome × List GitCmd :=
  if r.isRepo = false then (.failedWith .notARepo, [])
  else swfAux r branches none

/-- SwitchResult (git/branch.go, later revision): per-repository outcome of
the resolver, with the origin classification. -/
structure SwitchResult where
  repoPath : String
  repoName : String
  fromBranch : String
  toBranch : String
  success : Bool
  message : String
  fromRemote : Bool
  alreadyOnIt : Bool
deriving DecidableEq, Inhabited

/-- A fresh SwitchResult with only path, name and FromBranch filled in. -/
def emptySwitchResult (path name fb : String) : SwitchResult :=
  ⟨path, name, fb, "", false, "", false, false⟩

/-- Loop of SwitchBranchWithResult (git/branch.go, later revision): per
candidate, succeed immediately when already on it; a local hit is checked
out (failure continues silently); otherwise fetch (result ignored), check
the remote ref (error or absence continues), and on a remote hit create a
tracking branch, falling back to a plain checkout. -/
def swrAux (r : GitRepo) (base : SwitchResult) : List String → SwitchResult × List GitCmd
  | [] => ({base with message := "no matching branch found"}, [])
  | b :: rest =>
    if base.fromBranch = b then
      ({ base with
          toBranch := b
          success := true
          alreadyOnIt := true
          message := "already on target" }, [])
    else if r.refCheckErr b then
      withTrace [.showRefLocal b] (swrAux r base rest)
    else if b ∈ r.localBranches then
      if r.checkoutOk b then
        ({ base with
            toBranch := b
            success := true
            message := "switched" },
          [.showRefLocal b, .checkout b])
      else
        withTrace [.showRefLocal b, .checkout b] (swrAux r base rest)
    else if r.remoteRefCheckErr b then
      withTrace [.showRefLocal b, .fetch, .showRefRemote b] (swrAux r base rest)
    else if b ∈ r.remoteBranches then
      if r.trackCheckoutOk b then
        ({ base with
            toBranch := b
            success := true
            fromRemote := true
            message := "switched (from remote)" },
          [.showRefLocal b, .fetch, .showRefRemote b, .checkoutTrack b])
      else if r.checkoutOk b then
        ({ base with
            toBranch := b
            success := true
            fromRemote := true
            message := "switched (from remote)" },
          [.showRefLocal b, .fetch, .showRefRemote b, .checkoutTrack b, .checkout b])
      else
        withTrace [.showRefLocal b, .fetch, .showRefRemote b, .checkoutTrack b, .checkout b]
          (swrAux r base rest)
    else
      withTrace [.showRefLocal b, .fetch, .showRefRemote b] (swrAux r base rest)

/-- SwitchBranchWithResult (git/branch.go, later revision): path and
repository checks, current-branch lookup with the error discarded, then the
candidate loop. -/
def switchBranchWithResult (r : GitRepo) (repoPath repoName : String)
    (branches : List String) : SwitchResult × List GitCmd :=
  if r.isRepo = false then
    ({emptySwitchResult repoPath repoName "" with message := "not a git repository"}, [])
  else
    withTrace (getCurrentBranch r).2
      (swrAux r (emptySwitchResult repoPath repoName (currentBranchOrEmpty r)) branches)

/-- Errors of the stash functions (git/stash.go). -/
inductive StashErr
  | notARepo
  | statusFailed
  | pushFailed
  | listFailed
  | noStashFound
  | applyFailed
deriving DecidableEq

/-- StashChanges (git/stash.go): status --porcelain; when the trimmed output
is empty, no stash is pushed and no error is returned; otherwise a stash is
pushed with the message GitSwitch-prefix plus the supplied name.
Modelled from the spec: the created flag (first component) of the
two-valued StashChanges revision that SwitchBranchWithFallbackAndStash in
the later branch.go calls is missing from the available sources; per the
spec it reports whether a stash was actually created, which here is exactly
whether the stash push command ran and succeeded. -/
def stashChanges (r : GitRepo) (stashName : String) :
    (Bool × Option StashErr) × List GitCmd :=
  if r.isRepo = false then ((false, some .notARepo), [])
  else if r.statusOk = false then ((false, some .statusFailed), [.statusPorcelain])
  else if goTrimSpace r.statusOutput = "" then ((false, none), [.statusPorcelain])
  else
    if r.stashPushOk then
      ((true, none), [.statusPorcelain, .stashPush ("GitSwitch: " ++ stashName)])
    else
      ((false, some .pushFailed), [.statusPorcelain, .stashPush ("GitSwitch: " ++ stashName)])

/-- The stash-index extraction loop of ApplyStash (git/stash.go): scan the
stash list lines in order, and at the first line containing the name as a
substring take the trimmed part before the first colon and stop; the empty
string when no line matches. -/
def findStashIndex (lines : List String) (stashName : String) : String :=
  match lines with
  | [] => ""
  | l :: rest =>
    if goContains l stashName then goTrimSpace (beforeColon l)
    else findStashIndex rest stashName

/-- ApplyStash (git/stash.go): list the stashes, locate the first line
containing the name, and apply (never pop) the stash at the extracted
index; an empty extracted index reports no-stash-found. -/
def applyStash (r : GitRepo) (stashName : String) :
    Except StashErr Unit × List GitCmd :=
  if r.isRepo = false then (.error .notARepo, [])
  else if r.stashListOk = false then (.error .listFailed, [.stashList])
  else
    let idx := findStashIndex r.stashLines stashName
    if idx = "" then (.error .noStashFound, [.stashList])
    else if r.stashApplyOk idx then (.ok (), [.stashList, .stashApply idx])
    else (.error .applyFailed, [.stashList, .stashApply idx])

/-- Remove the first stash whose extracted index matches (the effect a pop
would have on the stash list). -/
def removeFirstStash (idx : String) : List String → List String
  | [] => []
  | l :: rest =>
    if goTrimSpace (beforeColon l) = idx then rest
    else l :: removeFirstStash idx rest

/-- Effect of one git command on the stash list: apply keeps every stash,
pop drops the stash it names, push adds an entry; nothing else touches it. -/
def stashEffectStep (stashes : List String) : GitCmd → List String
  | .stashPop idx => removeFirstStash idx stashes
  | .stashPush m => ("stash@\x7b0\x7d: " ++ m) :: stashes
  | _ => stashes

/-- The stash list after a trace of commands has run. -/
def runStashEffects (stashes : List String) : List GitCmd → List String
  | [] => stashes
  | c :: rest => runStashEffects (stashEffectStep stashes c) rest

/-- Errors of SwitchToBranch (git/git.go). -/
inductive SwbErr
  | notARepo
  | checkFailed
  | checkoutFailed
  | fetchFailed
  | remoteCheckFailed
  | remoteCheckoutFailed
  | notFound
deriving DecidableEq

/-- SwitchToBranch (git/git.go): the direct single-target switch used by the
revert engine; local checkout when the local ref exists, otherwise fetch,
remote-ref check, tracking checkout with plain-checkout fallback; any
failure is terminal for this repository. -/
def switchToBranch (r : GitRepo) (branch : String) :
    Option SwbErr × List GitCmd :=
  if r.isRepo = false then (some .notARepo, [])
  else if r.refCheckErr branch then (some .checkFailed, [.showRefLocal branch])
  else if branch ∈ r.localBranches then
    if r.checkoutOk branch then (none, [.showRefLocal branch, .checkout branch])
    else (some .checkoutFailed, [.showRefLocal branch, .checkout branch])
  else if r.fetchOk = false then (some .fetchFailed, [.showRefLocal branch, .fetch])
  else if r.remoteRefCheckErr branch then
    (some .remoteCheckFailed, [.showRefLocal branch, .fetch, .showRefRemote branch])
  else if branch ∈ r.remoteBranches then
    if r.trackCheckoutOk branch then
      (none, [.showRefLocal branch, .fetch, .showRefRemote branch, .checkoutTrack branch])
    else if r.checkoutOk branch then
      (none, [.showRefLocal branch, .fetch, .showRefRemote branch, .checkoutTrack branch,
        .checkout branch])
    else
      (some .remoteCheckoutFailed,
        [.showRefLocal branch, .fetch, .showRefRemote branch, .checkoutTrack branch,
          .checkout branch])
  else (some .notFound, [.showRefLocal branch, .fetch, .showRefRemote branch])

/-- RepositoryState (config/config.go): branch plus optional stash label. -/
structure RepositoryState where
  branch : String
  stashName : String
deriving DecidableEq, Inhabited

/-- BranchState (config/config.go): one snapshot; the repositories mapping
is carried as an association list in capture order. -/
structure BranchState where
  timestamp : String
  description : String
  repositories : List (String × RepositoryState)
deriving DecidableEq, Inhabited

/-- BranchHistory (config/config.go): snapshots, oldest first. -/
structure BranchHistory where
  states : List BranchState
deriving DecidableEq, Inhabited

/-- Messages the revert engine reports to the output sink. -/
inductive RevMsg
  | skippedNoBranch (path : String)
  | switchErr (path : String)
  | stashErr (path : String)
deriving DecidableEq

/-- Result of RevertToState: the reported messages, the global command
trace tagged with repository paths, and the returned error. -/
structure RevertResult where
  msgs : List RevMsg
  trace : List (String × GitCmd)
  err : Option String
deriving DecidableEq

/-- The body of the RevertToState loop (git/git.go) for one snapshot entry:
an empty recorded branch is skipped with a warning; a branch-switch failure
is reported and ends the entry; with applyStashes set and a non-empty
recorded label the stash is applied, a failure being reported only. -/
def revertRepoStep (env : String → GitRepo) (aps : Bool)
    (path : String) (rs : RepositoryState) :
    List RevMsg × List (String × GitCmd) :=
  if rs.branch = "" then ([.skippedNoBranch path], [])
  else
    let sw := switchToBranch (env path) rs.branch
    match sw.1 with
    | some _ => ([.switchErr path], sw.2.map (fun c => (path, c)))
    | none =>
      if aps && rs.stashName ≠ "" then
        let ap := applyStash (env path) rs.stashName
        match ap.1 with
        | .error _ => ([.stashErr path], (sw.2 ++ ap.2).map (fun c => (path, c)))
        | .ok _ => ([], (sw.2 ++ ap.2).map (fun c => (path, c)))
      else ([], sw.2.map (fun c => (path, c)))

/-- RevertToState (git/git.go): process every entry of the snapshot in
order; per-repository failures are reported to the sink and never abort the
loop; the function returns nil unconditionally. -/
def revertToState (env : String → GitRepo) (state : BranchState) (aps : Bool) :
    RevertResult :=
  let steps := state.repositories.map (fun e => revertRepoStep env aps e.1 e.2)
  { msgs := (steps.map Prod.fst).flatten
    trace := (steps.map Prod.snd).flatten
    err := none }

/-- A structured document, the shape the history file serializes to.
Modelled from the spec: the source delegates serialization to an external
YAML library (gopkg.in/yaml.v3), which is not part of this repository; the
spec fixes only the shape (top-level states list, each state carrying
timestamp, optional description and a repositories mapping of branch plus
optional stash) and says any structured format with that shape round-trips. -/
inductive HDoc
  | str (s : String)
  | list (items : List HDoc)
  | map (entries : List (String × HDoc))

/-- Key lookup inside a serialized mapping. -/
def docLookup : List (String × HDoc) → String → Option HDoc
  | [], _ => none
  | (k, v) :: rest, key => if k = key then some v else docLookup rest key

/-- Serialize one repositories-map value; the stash field is omitted when
empty (the omitempty tag in config/config.go). -/
def encodeRepoState (rs : RepositoryState) : HDoc :=
  .map (("branch", .str rs.branch) ::
    (if rs.stashName = "" then [] else [("stash", .str rs.stashName)]))

/-- Serialize one snapshot; the description field is omitted when empty
(the omitempty tag in config/config.go). -/
def encodeState (st : BranchState) : HDoc :=
  .map (("timestamp", .str st.timestamp) ::
    ((if st.description = "" then [] else [("description", .str st.description)]) ++
      [("repositories",
        .map (st.repositories.map (fun e => (e.1, encodeRepoState e.2))))]))

/-- Serialize a whole history document. -/
def encodeHistory (h : BranchHistory) : HDoc :=
  .map [("states", .list (h.states.map encodeState))]

/-- Deserialize one repositories-map value; missing fields take the Go zero
value, the empty string. -/
def decodeRepoState (d : HDoc) : Option RepositoryState :=
  match d with
  | .map es =>
    some ⟨(match docLookup es "branch" with | some (.str v) => v | _ => ""),
      (match docLookup es "stash" with | some (.str v) => v | _ => "")⟩
  | _ => none

/-- Deserialize the repositories mapping entry by entry. -/
def decodeRepoEntries : List (String × HDoc) → Option (List (String × RepositoryState))
  | [] => some []
  | (k, v) :: rest =>
    match decodeRepoState v, decodeRepoEntries rest with
    | some rs, some l => some ((k, rs) :: l)
    | _, _ => none

/-- Deserialize one snapshot. -/
def decodeState (d : HDoc) : Option BranchState :=
  match d with
  | .map es =>
    let t := match docLookup es "timestamp" with | some (.str v) => v | _ => ""
    let desc := match docLookup es "description" with | some (.str v) => v | _ => ""
    match docLookup es "repositories" with
    | some (.map rs) =>
      match decodeRepoEntries rs with
      | some entries => some ⟨t, desc, entries⟩
      | none => none
    | some _ => none
    | none => some ⟨t, desc, []⟩
  | _ => none

/-- Deserialize the states list element by element. -/
def decodeStates : List HDoc → Option (List BranchState)
  | [] => some []
  | d :: rest =>
    match decodeState d, decodeStates rest with
    | some s, some l => some (s :: l)
    | _, _ => none

/-- Deserialize a whole history document. -/
def decodeHistory (d : HDoc) : Option BranchHistory :=
  match d with
  | .map es =>
    match docLookup es "states" with
    | some (.list items) =>
      match decodeStates items with
      | some l => some ⟨l⟩
      | none => none
    | some _ => none
    | none => some ⟨[]⟩
  | _ => none

/-- LoadBranchHistory (config/config.go): a missing file yields the empty
history and no error; an unparsable file is an error. -/
def loadBranchHistory (fileContents : Option HDoc) : Except String BranchHistory :=
  match fileContents with
  | none => .ok ⟨[]⟩
  | some d =>
    match decodeHistory d with
    | some h => .ok h
    | none => .error "failed to parse history file"

/-- SaveBranchHistory (config/config.go): whole-file overwrite with the
serialized history. -/
def saveBranchHistory (h : BranchHistory) : Option HDoc :=
  some (encodeHistory h)

/-- SaveStateToHistory (config history helpers): append the state to the
given history and save the whole file. -/
def saveStateToHistory (state : BranchState) (h : BranchHistory) : Option HDoc :=
  saveBranchHistory ⟨h.states ++ [state]⟩

/-- The newest-first lookup the CLI uses: logical index 0 is the most
recently appended snapshot (array offset length minus one). -/
def historyLookup (h : BranchHistory) (userIndex : Nat) : Option BranchState :=
  h.states.get? (h.states.length - 1 - userIndex)

/-- First value stored under a key in an association list (the Go map
lookup over the capture order). -/
def assocFind (l : List (String × α)) (key : String) : Option α :=
  match l with
  | [] => none
  | (k, v) :: rest => if k = key then some v else assocFind rest key

/-- CreateBranchStateSnapshot (config/config.go), the state-building loop:
one entry per listed repository; the branch value is the raw output of the
rev-parse subprocess run through cmd /c, stored without any trimming, or
the empty string when that command fails; the stash label comes from the
supplied map. -/
def createBranchStateSnapshot (env : String → GitRepo) (now : String)
    (repos : List String) (description : String)
    (stashNameByRepo : String → String) : BranchState :=
  { timestamp := now
    description := description
    repositories := repos.map (fun p =>
      let r := env p
      (p, ⟨(if r.headOk then r.headBranchOutput else ""), stashNameByRepo p⟩)) }

/-- collectCurrentState (cmd/switch.go): one entry per repository whose
GetCurrentBranch lookup succeeds; a failing repository is skipped with a
warning (continue), leaving no entry for it, and the walk goes on. -/
def collectCurrentState (env : String → GitRepo) (now : String)
    (historyDescription : String) (repos : List String) : BranchState :=
  { timestamp := now
    description := historyDescription
    repositories := repos.filterMap (fun p =>
      match (getCurrentBranch (env p)).1 with
      | .error _ => none
      | .ok b => some (p, ⟨b, ""⟩)) }

/-- Outcome of one invocation of the revert command. -/
inductive RevertOutcome
  | noHistory
  | invalidIndex (lo hi : Int)
  | reverted (offset : Nat) (state : BranchState)
deriving DecidableEq

/-- Whether the outcome is the HistoryIndexInvalid error. -/
def RevertOutcome.isInvalid : RevertOutcome → Bool
  | .invalidIndex _ _ => true
  | _ => false

/-- One run of the revert command: its outcome, every repository-mutating
git command it issued, and whether the final overall success line was
printed. -/
structure RevertCmdRun where
  outcome : RevertOutcome
  trace : List (String × GitCmd)
  printedSuccess : Bool
deriving DecidableEq

/-- runRevertCmd (cmd/revert.go) after argument parsing: empty history
returns early with an informational message; the user index is mapped to
the array offset length minus one minus index, and an out-of-range offset
is the HistoryIndexInvalid error reporting the range 0 to length minus one,
issued before any repository is touched; otherwise the selected snapshot is
replayed and, the engine returning nil, the overall success line prints. -/
def runRevertCmd (env : String → GitRepo) (history : BranchHistory)
    (index : Int) (aps : Bool) : RevertCmdRun :=
  let L := history.states.length
  if L = 0 then ⟨.noHistory, [], false⟩
  else
    let actualIndex : Int := (L : Int) - 1 - index
    if actualIndex < 0 ∨ (L : Int) ≤ actualIndex then
      ⟨.invalidIndex 0 ((L : Int) - 1), [], false⟩
    else
      let st := history.states.getD actualIndex.toNat default
      let res := revertToState env st aps
      ⟨.reverted actualIndex.toNat st, res.trace, res.err.isNone⟩

/-- The commands one exhausted candidate leaves in the trace: local ref
check, fetch, remote ref check. -/
def swfSkipTrace : List String → List GitCmd
  | [] => []
  | b :: rest => .showRefLocal b :: .fetch :: .showRefRemote b :: swfSkipTrace rest

/-- A path with no .git directory. -/
def failRepo : GitRepo := { baseRepo with isRepo := false }

/-- Repository for the fallback witness: on feature/z, only develop exists
locally, nothing remotely. -/
def repoDevOnly : GitRepo :=
  { baseRepo with
      headBranchOutput := "feature/z\n"
      localBranches := ["develop"]
      remoteBranches := [] }

/-- Repository for the stash-apply witness: two stashes, the wanted label
only in the second line. -/
def repoTwoStashes : GitRepo :=
  { baseRepo with
      stashLines :=
        ["stash@\x7b0\x7d: On main: GitSwitch: other",
         "stash@\x7b1\x7d: On main: GitSwitch: wip"] }

/-- Concrete snapshots for the history witnesses. -/
def stA : BranchState := ⟨"2024-01-01T00:00:00Z", "oldest", [("r1", ⟨"main", ""⟩)]⟩

/-- Second concrete snapshot. -/
def stB : BranchState := ⟨"2024-01-02T00:00:00Z", "", [("r1", ⟨"develop", "wip"⟩)]⟩

/-- Third concrete snapshot, the most recently appended. -/
def stC : BranchState := ⟨"2024-01-03T00:00:00Z", "newest", [("r1", ⟨"main", ""⟩)]⟩

/-- A three-snapshot history, oldest first. -/
def hist3 : BranchHistory := ⟨[stA, stB, stC]⟩

/-- A one-snapshot history. -/
def hist1 : BranchHistory := ⟨[stA]⟩

/-- C3: for a history of length L and a user index i with 0 le i lt L, the
revert command selects the snapshot at array offset L - 1 - i, so index 0
is the most recently appended snapshot and index L - 1 the oldest. -/
theorem revert_index_selects_offset (env : String → GitRepo)
    (h : BranchHistory) (i : Int) (aps : Bool)
    (h0 : 0 ≤ i) (h1 : i < (h.states.length : Int)) :
    (runRevertCmd env h i aps).outcome =
      .reverted (h.states.length - 1 - i.toNat)
        (h.states.getD (h.states.length - 1 - i.toNat) default) := by
  have hL : ¬ h.states.length = 0 := by omega
  have hcond : ¬ ((h.states.length : Int) - 1 - i < 0 ∨
      (h.states.length : Int) ≤ (h.states.length : Int) - 1 - i) := by omega
  have htn : ((h.states.length : Int) - 1 - i).toNat = h.states.length - 1 - i.toNat := by
    omega
  simp only [runRevertCmd, if_neg hL, if_neg hcond, htn]

/-- C3 witness: on a three-snapshot history, index 2 selects offset 0, the
oldest snapshot. -/
theorem revert_index_selects_offset_witness :
    ((0 : Int) ≤ 2 ∧ (2 : Int) < (hist3.states.length : Int)) ∧
    (runRevertCmd (fun _ => baseRepo) hist3 2 true).outcome = .reverted 0 stA :=
  ⟨⟨by decide, by decide⟩,
    (revert_index_selects_offset (fun _ => baseRepo) hist3 2 true (by decide)
      (by decide)).trans (by decide)⟩

/-- C4 counterexample: on an empty history (length 0) with index 0, which
satisfies i ge L, the revert command does not fail with HistoryIndexInvalid;
it returns early with the informational no-history message. -/
theorem revert_empty_history_not_invalid :
    (runRevertCmd (fun _ => baseRepo) ⟨[]⟩ 0 true).outcome.isInvalid = false ∧
    (runRevertCmd (fun _ => baseRepo) ⟨[]⟩ 0 true).outcome = .noHistory := by
  constructor <;> rfl

/-- C4 amended: for a non-empty history of length L and any index i with
i lt 0 or i ge L, the revert command fails with the HistoryIndexInvalid
error reporting the valid range 0 to L - 1, issues no git command (zero
repository mutations), and prints no success line; an empty history
instead returns early with an informational message, still mutating
nothing. -/
theorem revert_out_of_range_invalid (env : String → GitRepo)
    (h : BranchHistory) (i : Int) (aps : Bool)
    (hL : 1 ≤ h.states.length)
    (hi : i < 0 ∨ (h.states.length : Int) ≤ i) :
    (runRevertCmd env h i aps).outcome =
      .invalidIndex 0 ((h.states.length : Int) - 1) ∧
    (runRevertCmd env h i aps).trace = [] ∧
    (runRevertCmd env h i aps).printedSuccess = false := by
  have hL0 : ¬ h.states.length = 0 := by omega
  have hcond : (h.states.length : Int) - 1 - i < 0 ∨
      (h.states.length : Int) ≤ (h.states.length : Int) - 1 - i := by omega
  refine ⟨?_, ?_, ?_⟩ <;> simp only [runRevertCmd, if_neg hL0, if_pos hcond]

/-- C4 witness: a one-snapshot history with index 5 hits the invalid-index
error with range 0 to 0 and an empty trace. -/
theorem revert_out_of_range_invalid_witness :
    (1 ≤ hist1.states.length ∧ ((5 : Int) < 0 ∨ (hist1.states.length : Int) ≤ 5)) ∧
    ((runRevertCmd (fun _ => baseRepo) hist1 5 true).outcome =
        .invalidIndex 0 ((hist1.states.length : Int) - 1) ∧
      (runRevertCmd (fun _ => baseRepo) hist1 5 true).trace = [] ∧
      (runRevertCmd (fun _ => baseRepo) hist1 5 true).printedSuccess = false) :=
  ⟨⟨by decide, by decide⟩,
    revert_out_of_range_invalid (fun _ => baseRepo) hist1 5 true (by decide)
      (by decide)⟩

/-- C9: RevertToState returns nil unconditionally, whatever the snapshot,
the applyStashes flag and the repository environment (failures are only
reported to the output sink), so a revert invocation that reaches the
engine always ends by printing the overall success line. -/
theorem revert_to_state_always_nil (env : String → GitRepo)
    (st : BranchState) (aps : Bool) (h : BranchHistory) (i : Int)
    (h0 : 0 ≤ i) (h1 : i < (h.states.length : Int)) :
    (revertToState env st aps).err = none ∧
    (runRevertCmd env h i aps).printedSuccess = true := by
  have hL : ¬ h.states.length = 0 := by omega
  have hcond : ¬ ((h.states.length : Int) - 1 - i < 0 ∨
      (h.states.length : Int) ≤ (h.states.length : Int) - 1 - i) := by omega
  refine ⟨rfl, ?_⟩
  simp only [runRevertCmd, if_neg hL, if_neg hcond]
  rfl

/-- C9 witness: with every repository path invalid (every branch switch
fails) and a stash label recorded nowhere findable, the engine still
reports no error and the command still prints the success line. -/
theorem revert_to_state_always_nil_witness :
    ((0 : Int) ≤ 0 ∧ (0 : Int) < (hist3.states.length : Int)) ∧
    ((revertToState (fun _ => failRepo) stB true).err = none ∧
      (runRevertCmd (fun _ => failRepo) hist3 0 true).printedSuccess = true) :=
  ⟨⟨by decide, by decide⟩,
    revert_to_state_always_nil (fun _ => failRepo) stB true hist3 0 (by decide)
      (by decide)⟩

theorem decodeRepoState_encode (rs : RepositoryState) :
    decodeRepoState (encodeRepoState rs) = some rs := by
  obtain ⟨b, s⟩ := rs
  by_cases hs : s = "" <;>
    simp [encodeRepoState, decodeRepoState, docLookup, hs]

theorem decodeRepoEntries_encode (l : List (String × RepositoryState)) :
    decodeRepoEntries (l.map (fun e => (e.1, encodeRepoState e.2))) = some l := by
  induction l with
  | nil => rfl
  | cons e t ih => simp [decodeRepoEntries, decodeRepoState_encode, ih]

theorem decodeState_encode (st : BranchState) :
    decodeState (encodeState st) = some st := by
  obtain ⟨t, d, repos⟩ := st
  by_cases hd : d = "" <;>
    simp [encodeState, decodeState, docLookup, hd, decodeRepoEntries_encode]

theorem decodeStates_encode (l : List BranchState) :
    decodeStates (l.map encodeState) = some l := by
  induction l with
  | nil => rfl
  | cons s t ih => simp [decodeStates, decodeState_encode, ih]

theorem decodeHistory_encode (h : BranchHistory) :
    decodeHistory (encodeHistory h) = some h := by
  simp [encodeHistory, decodeHistory, docLookup, decodeStates_encode]

/-- C5: appending a snapshot to a history and saving the whole file, then
loading it back, returns exactly the appended history, and the newest-first
lookup at logical index 0 returns a snapshot equal to the one appended,
timestamp, description and per-repository branch/stash mapping included. -/
theorem history_roundtrip (h : BranchHistory) (s : BranchState) :
    loadBranchHistory (saveStateToHistory s h) = .ok ⟨h.states ++ [s]⟩ ∧
    historyLookup ⟨h.states ++ [s]⟩ 0 = some s := by
  constructor
  · simp [saveStateToHistory, saveBranchHistory, loadBranchHistory,
      decodeHistory_encode]
  · show (h.states ++ [s]).get? ((h.states ++ [s]).length - 1 - 0) = some s
    have hl : (h.states ++ [s]).length - 1 - 0 = h.states.length := by
      simp
    rw [hl, List.get?_eq_getElem?, List.getElem?_concat_length]

/-- C10: when the rev-parse output for a repository carries surrounding
whitespace (the newline the subprocess emits), CreateBranchStateSnapshot
records the raw, untrimmed output as the branch value of that entry, while
GetCurrentBranch returns the trimmed value for the same repository, so the
two differ. -/
theorem snapshot_records_untrimmed_branch (env : String → GitRepo)
    (p now desc : String) (snm : String → String)
    (hrepo : (env p).isRepo = true) (hok : (env p).headOk = true)
    (hws : goTrimSpace (env p).headBranchOutput ≠ (env p).headBranchOutput) :
    assocFind (createBranchStateSnapshot env now [p] desc snm).repositories p =
      some ⟨(env p).headBranchOutput, snm p⟩ ∧
    (getCurrentBranch (env p)).1 =
      .ok (goTrimSpace (env p).headBranchOutput) ∧
    goTrimSpace (env p).headBranchOutput ≠ (env p).headBranchOutput := by
  refine ⟨?_, ?_, hws⟩
  · simp [createBranchStateSnapshot, assocFind, hok]
  · simp [getCurrentBranch, hrepo, hok]

/-- C10 witness: rev-parse emits the branch name followed by a newline; the
snapshot stores the raw output with the newline, GetCurrentBranch strips
it. -/
theorem snapshot_records_untrimmed_branch_witness :
    (baseRepo.isRepo = true ∧ baseRepo.headOk = true ∧
      goTrimSpace baseRepo.headBranchOutput ≠ baseRepo.headBranchOutput) ∧
    (assocFind (createBranchStateSnapshot (fun _ => baseRepo) "t" ["r1"] ""
          (fun _ => "")).repositories "r1" =
        some ⟨baseRepo.headBranchOutput, ""⟩ ∧
      (getCurrentBranch baseRepo).1 = .ok (goTrimSpace baseRepo.headBranchOutput) ∧
      goTrimSpace baseRepo.headBranchOutput ≠ baseRepo.headBranchOutput) :=
  ⟨⟨by decide, by decide, by decide⟩,
    snapshot_records_untrimmed_branch (fun _ => baseRepo) "r1" "t" "" (fun _ => "")
      (by decide) (by decide) (by decide)⟩

theorem assocFind_map_self (f : String → RepositoryState) (repos : List String)
    (q : String) (hq : q ∈ repos) :
    assocFind (repos.map (fun p => (p, f p))) q = some (f q) := by
  induction repos with
  | nil => cases hq
  | cons a t ih =>
    simp only [List.map_cons, assocFind]
    by_cases h : a = q
    · subst h; simp
    · rw [if_neg h]
      exact ih (by cases hq with
        | head => exact absurd rfl h
        | tail _ hm => exact hm)

theorem collectCurrentState_find (env : String → GitRepo) (now desc : String)
    (repos : List String) (q : String) :
    assocFind (collectCurrentState env now desc repos).repositories q =
      (if q ∈ repos then
        (match (getCurrentBranch (env q)).1 with
          | .error _ => none
          | .ok b => some (⟨b, ""⟩ : RepositoryState))
       else none) := by
  simp only [collectCurrentState]
  induction repos with
  | nil => simp [assocFind]
  | cons a t ih =>
    simp only [List.filterMap_cons]
    by_cases h : a = q
    · subst h
      cases hcb : (getCurrentBranch (env a)).1 with
      | error e =>
        simp only [hcb]
        rw [ih]
        by_cases ht : a ∈ t <;> simp [ht, hcb]
      | ok b => simp [hcb, assocFind]
    · have h2 : ¬ q = a := fun hh => h hh.symm
      cases hcb : (getCurrentBranch (env a)).1 with
      | error e =>
        simp only [hcb]
        rw [ih]
        simp [List.mem_cons, h2]
      | ok b =>
        simp only [hcb, assocFind]
        rw [if_neg h, ih]
        simp [List.mem_cons, h2]

/-- C8 counterexample: a managed repository whose current-branch lookup
fails (no .git directory) gets no entry at all in the snapshot that
collectCurrentState captures, rather than an entry with an empty branch
string. -/
theorem failed_lookup_leaves_no_entry :
    assocFind
      (collectCurrentState (fun _ => failRepo) "t" "" ["r1"]).repositories
      "r1" = none ∧
    (collectCurrentState (fun _ => failRepo) "t" "" ["r1"]).repositories.length = 0 := by
  constructor <;> rfl

/-- C8 amended: snapshot capture never aborts on an individual lookup
failure, but the two capture routines differ on the failing entry:
CreateBranchStateSnapshot produces one entry per managed repository and
records an empty branch string when the rev-parse subprocess fails, while
collectCurrentState (the switch command path) omits the entry for a
repository whose GetCurrentBranch lookup fails and keeps every entry whose
lookup succeeds. -/
theorem snapshot_capture_per_repo (env : String → GitRepo)
    (now desc : String) (snm : String → String) (repos : List String) :
    (createBranchStateSnapshot env now repos desc snm).repositories.length =
      repos.length ∧
    (∀ q ∈ repos,
      assocFind (createBranchStateSnapshot env now repos desc snm).repositories q =
        some ⟨(if (env q).headOk then (env q).headBranchOutput else ""), snm q⟩) ∧
    (∀ q ∈ repos,
      assocFind (collectCurrentState env now desc repos).repositories q =
        (match (getCurrentBranch (env q)).1 with
          | .error _ => none
          | .ok b => some (⟨b, ""⟩ : RepositoryState))) := by
  refine ⟨by simp [createBranchStateSnapshot], ?_, ?_⟩
  · intro q hq
    simp only [createBranchStateSnapshot]
    exact assocFind_map_self
      (fun p => ⟨(if (env p).headOk then (env p).headBranchOutput else ""), snm p⟩)
      repos q hq
  · intro q hq
    rw [collectCurrentState_find env now desc repos q, if_pos hq]

/-- C6: with a clean working tree (empty trimmed porcelain output) the
stash-before-switch operation creates no stash, reports created false with
no error, and pushes nothing; whenever it reports created true the tree was
dirty; and any stash it pushes carries the fixed GitSwitch prefix followed
by the supplied label. -/
theorem stash_clean_tree_noop (r : GitRepo) (name : String)
    (hrepo : r.isRepo = true) (hstatus : r.statusOk = true) :
    (goTrimSpace r.statusOutput = "" →
      (stashChanges r name).1 = (false, none) ∧
      ∀ c ∈ (stashChanges r name).2, isStashPushCmd c = false) ∧
    ((stashChanges r name).1.1 = true → goTrimSpace r.statusOutput ≠ "") ∧
    (∀ m, GitCmd.stashPush m ∈ (stashChanges r name).2 →
      m = "GitSwitch: " ++ name) := by
  refine ⟨?_, ?_, ?_⟩
  · intro hclean
    constructor
    · simp [stashChanges, hrepo, hstatus, hclean]
    · intro c hc
      simp only [stashChanges, hrepo, hstatus, hclean] at hc
      simp at hc
      simp [hc, isStashPushCmd]
  · intro hcreated hclean
    simp [stashChanges, hrepo, hstatus, hclean] at hcreated
  · intro m hm
    by_cases hclean : goTrimSpace r.statusOutput = ""
    · simp [stashChanges, hrepo, hstatus, hclean] at hm
    · by_cases hp : r.stashPushOk
      · simp [stashChanges, hrepo, hstatus, hclean, hp] at hm
        exact hm
      · simp [stashChanges, hrepo, hstatus, hclean, hp] at hm
        exact hm

/-- C6 witness: on a clean repository, stash-before-switch reports created
false with no error and issues no stash push. -/
theorem stash_clean_tree_noop_witness :
    (baseRepo.isRepo = true ∧ baseRepo.statusOk = true ∧
      goTrimSpace baseRepo.statusOutput = "") ∧
    (stashChanges baseRepo "wip").1 = (false, none) ∧
    (∀ c ∈ (stashChanges baseRepo "wip").2, isStashPushCmd c = false) :=
  ⟨⟨by decide, by decide, by decide⟩,
    ((stash_clean_tree_noop baseRepo "wip" (by decide) (by decide)).1
      (by decide)).1,
    ((stash_clean_tree_noop baseRepo "wip" (by decide) (by decide)).1
      (by decide)).2⟩

theorem findStashIndex_append (pre rest : List String) (label : String)
    (hpre : ∀ l ∈ pre, goContains l label = false) :
    findStashIndex (pre ++ rest) label = findStashIndex rest label := by
  induction pre with
  | nil => rfl
  | cons a t ih =>
    have ha := hpre a (List.mem_cons_self a t)
    simp only [List.cons_append, findStashIndex, ha, Bool.false_eq_true, if_false]
    exact ih (fun l hl => hpre l (List.mem_cons_of_mem a hl))

theorem findStashIndex_none (lines : List String) (label : String)
    (h : ∀ l ∈ lines, goContains l label = false) :
    findStashIndex lines label = "" := by
  induction lines with
  | nil => rfl
  | cons a t ih =>
    have ha := h a (List.mem_cons_self a t)
    simp only [findStashIndex, ha, Bool.false_eq_true, if_false]
    exact ih (fun l hl => h l (List.mem_cons_of_mem a hl))

/-- C7: during revert with stash application, the engine selects the first
stash-list line containing the recorded label as a substring, applies (not
pops) the index extracted from that line so the stash list is unchanged
afterwards, and when no line contains the label it reports a non-fatal
per-repository error: the apply call fails with no-stash-found, the engine
reports it to the sink and still returns nil. -/
theorem revert_applies_first_matching_stash (r : GitRepo) (label : String)
    (env : String → GitRepo) (path branch ts desc : String)
    (hrepo : r.isRepo = true) (hlist : r.stashListOk = true)
    (hlabel : label ≠ "") :
    (∀ pre l post, r.stashLines = pre ++ l :: post →
      (∀ l2 ∈ pre, goContains l2 label = false) →
      goContains l label = true →
      goTrimSpace (beforeColon l) ≠ "" →
      (applyStash r label).2 =
        [.stashList, .stashApply (goTrimSpace (beforeColon l))] ∧
      (∀ c ∈ (applyStash r label).2, isPopCmd c = false) ∧
      runStashEffects r.stashLines (applyStash r label).2 = r.stashLines ∧
      (r.stashApplyOk (goTrimSpace (beforeColon l)) = true →
        (applyStash r label).1 = .ok ())) ∧
    ((∀ l2 ∈ r.stashLines, goContains l2 label = false) →
      (applyStash r label).1 = .error .noStashFound ∧
      (env path = r → branch ≠ "" → r.refCheckErr branch = false →
        branch ∈ r.localBranches → r.checkoutOk branch = true →
        (revertToState env ⟨ts, desc, [(path, ⟨branch, label⟩)]⟩ true).msgs =
          [.stashErr path] ∧
        (revertToState env ⟨ts, desc, [(path, ⟨branch, label⟩)]⟩ true).err =
          none)) := by
  constructor
  · intro pre l post hsplit hpre hl hidx
    have hfind : findStashIndex r.stashLines label = goTrimSpace (beforeColon l) := by
      rw [hsplit, findStashIndex_append pre (l :: post) label hpre]
      simp [findStashIndex, hl]
    refine ⟨?_, ?_, ?_, ?_⟩
    · by_cases hap : r.stashApplyOk (goTrimSpace (beforeColon l)) <;>
        simp [applyStash, hrepo, hlist, hfind, hidx, hap]
    · intro c hc
      by_cases hap : r.stashApplyOk (goTrimSpace (beforeColon l)) <;>
        simp [applyStash, hrepo, hlist, hfind, hidx, hap] at hc <;>
        rcases hc with hc | hc <;> simp [hc, isPopCmd]
    · by_cases hap : r.stashApplyOk (goTrimSpace (beforeColon l)) <;>
        simp [applyStash, hrepo, hlist, hfind, hidx, hap,
          runStashEffects, stashEffectStep]
    · intro hap
      simp [applyStash, hrepo, hlist, hfind, hidx, hap]
  · intro hnone
    have hfind : findStashIndex r.stashLines label = "" :=
      findStashIndex_none r.stashLines label hnone
    have happ : (applyStash r label).1 = .error .noStashFound := by
      simp [applyStash, hrepo, hlist, hfind]
    refine ⟨happ, ?_⟩
    intro henv hbr hchk hloc hco
    have hsw : (switchToBranch (env path) branch).1 = none := by
      rw [henv]
      simp [switchToBranch, hrepo, hchk, hloc, hco]
    constructor
    · have hsw2 : (switchToBranch r branch).1 = none := by
        simp [switchToBranch, hrepo, hchk, hloc, hco]
      simp [revertToState, revertRepoStep, hbr, henv, hsw2, happ, hlabel]
    · rfl

/-- C7 witness: with two stashes and the label wip only in the second line,
the engine applies exactly the stash at index stash-at-1, issues no pop,
and leaves the stash list unchanged. -/
theorem revert_applies_first_matching_stash_witness :
    (repoTwoStashes.isRepo = true ∧ repoTwoStashes.stashListOk = true ∧
      ("wip" : String) ≠ "") ∧
    (applyStash repoTwoStashes "wip").2 =
      [.stashList, .stashApply "stash@\x7b1\x7d"] ∧
    (∀ c ∈ (applyStash repoTwoStashes "wip").2, isPopCmd c = false) ∧
    runStashEffects repoTwoStashes.stashLines (applyStash repoTwoStashes "wip").2 =
      repoTwoStashes.stashLines := by
  have h := revert_applies_first_matching_stash repoTwoStashes "wip"
    (fun _ => repoTwoStashes) "p" "main" "t" "" (by decide) (by decide) (by decide)
  have h1 := h.1 ["stash@\x7b0\x7d: On main: GitSwitch: other"]
    "stash@\x7b1\x7d: On main: GitSwitch: wip" [] (by decide) (by decide)
    (by decide) (by decide)
  exact ⟨⟨by decide, by decide, by decide⟩, h1.1.trans (by decide), h1.2.1, h1.2.2.1⟩

/-- C2: when the current branch already equals the first candidate, the
resolver succeeds immediately with the already-on-target classification and
issues no checkout command at all (the only subprocess run is the
current-branch query). -/
theorem resolver_idempotent_on_first_candidate (r : GitRepo)
    (p n b : String) (rest : List String)
    (hrepo : r.isRepo = true) (hhead : r.headOk = true)
    (hcur : goTrimSpace r.headBranchOutput = b) :
    (switchBranchWithResult r p n (b :: rest)).1.success = true ∧
    (switchBranchWithResult r p n (b :: rest)).1.alreadyOnIt = true ∧
    (switchBranchWithResult r p n (b :: rest)).1.message = "already on target" ∧
    (switchBranchWithResult r p n (b :: rest)).1.toBranch = b ∧
    (switchBranchWithResult r p n (b :: rest)).2 = [.revParseHead] ∧
    (switchBranchWithResult r p n (b :: rest)).2.filter isCheckoutCmd = [] := by
  have hfb : currentBranchOrEmpty r = b := by
    simp [currentBranchOrEmpty, getCurrentBranch, hrepo, hhead, hcur]
  refine ⟨?_, ?_, ?_, ?_, ?_, ?_⟩ <;>
    simp [switchBranchWithResult, swrAux, getCurrentBranch, withTrace,
      emptySwitchResult, hrepo, hhead, hfb, isCheckoutCmd]

/-- C2 witness: a repository on main with candidate list main then develop
succeeds as already-on-target with only the rev-parse query issued. -/
theorem resolver_idempotent_on_first_candidate_witness :
    (baseRepo.isRepo = true ∧ baseRepo.headOk = true ∧
      goTrimSpace baseRepo.headBranchOutput = "main") ∧
    ((switchBranchWithResult baseRepo "r1" "r1" ["main", "develop"]).1.success = true ∧
      (switchBranchWithResult baseRepo "r1" "r1" ["main", "develop"]).1.alreadyOnIt = true ∧
      (switchBranchWithResult baseRepo "r1" "r1" ["main", "develop"]).1.message =
        "already on target" ∧
      (switchBranchWithResult baseRepo "r1" "r1" ["main", "develop"]).1.toBranch = "main" ∧
      (switchBranchWithResult baseRepo "r1" "r1" ["main", "develop"]).2 = [.revParseHead] ∧
      (switchBranchWithResult baseRepo "r1" "r1" ["main", "develop"]).2.filter
        isCheckoutCmd = []) :=
  ⟨⟨by decide, by decide, by decide⟩,
    resolver_idempotent_on_first_candidate baseRepo "r1" "r1" "main" ["develop"]
      (by decide) (by decide) (by decide)⟩

theorem swfAux_skip_all (r : GitRepo) (pre rest : List String) (le : Option SwfErr)
    (hfetch : r.fetchOk = true)
    (hpre : ∀ b ∈ pre, r.refCheckErr b = false ∧ b ∉ r.localBranches ∧
      r.remoteRefCheckErr b = false ∧ b ∉ r.remoteBranches) :
    swfAux r (pre ++ rest) le = withTrace (swfSkipTrace pre) (swfAux r rest le) := by
  induction pre with
  | nil => simp [swfSkipTrace, withTrace]
  | cons a t ih =>
    obtain ⟨h1, h2, h3, h4⟩ := hpre a (List.mem_cons_self a t)
    rw [List.cons_append]
    simp only [swfAux, h1, h2, h3, h4, hfetch, Bool.false_eq_true, if_false,
      Bool.true_eq_false, ite_false]
    rw [ih (fun b hb => hpre b (List.mem_cons_of_mem a hb))]
    simp [withTrace, swfSkipTrace]

theorem swrAux_skip_all (r : GitRepo) (base : SwitchResult) (pre rest : List String)
    (hpre : ∀ b ∈ pre, base.fromBranch ≠ b ∧ r.refCheckErr b = false ∧
      b ∉ r.localBranches ∧ r.remoteRefCheckErr b = false ∧ b ∉ r.remoteBranches) :
    swrAux r base (pre ++ rest) = withTrace (swfSkipTrace pre) (swrAux r base rest) := by
  induction pre with
  | nil => simp [swfSkipTrace, withTrace]
  | cons a t ih =>
    obtain ⟨h0, h1, h2, h3, h4⟩ := hpre a (List.mem_cons_self a t)
    rw [List.cons_append]
    simp only [swrAux, h0, h1, h2, h3, h4, Bool.false_eq_true, if_false,
      Bool.true_eq_false, ite_false]
    rw [ih (fun b hb => hpre b (List.mem_cons_of_mem a hb))]
    simp [withTrace, swfSkipTrace]

theorem swfSkipTrace_filter_checkout (pre : List String) :
    (swfSkipTrace pre).filter isCheckoutCmd = [] := by
  induction pre with
  | nil => rfl
  | cons a t ih => simp [swfSkipTrace, isCheckoutCmd, ih]

theorem swfSkipTrace_branches (pre : List String) (c : GitCmd)
    (hc : c ∈ swfSkipTrace pre) (b : String) (hb : cmdBranch c = some b) :
    b ∈ pre := by
  induction pre with
  | nil => cases hc
  | cons a t ih =>
    simp only [swfSkipTrace, List.mem_cons] at hc
    rcases hc with h | h | h
    · subst h; simp [cmdBranch] at hb; simp [hb]
    · subst h; simp [cmdBranch] at hb
    · rcases h with h | h
      · subst h; simp [cmdBranch] at hb; simp [hb]
      · exact List.mem_cons_of_mem a (ih h)

/-- C1: when none of the candidates before the target exists locally or
remotely (and their checks do not error), and the target exists locally
with a succeeding checkout, both resolver variants land exactly on the
target: the only checkout command issued names the target, resolution
succeeds, and no candidate after the target is ever mentioned in any
command. -/
theorem resolution_first_match_wins (r : GitRepo) (p n target : String)
    (pre post : List String)
    (hrepo : r.isRepo = true) (hfetch : r.fetchOk = true)
    (hpre : ∀ b ∈ pre, r.refCheckErr b = false ∧ b ∉ r.localBranches ∧
      r.remoteRefCheckErr b = false ∧ b ∉ r.remoteBranches)
    (hterr : r.refCheckErr target = false)
    (htloc : target ∈ r.localBranches)
    (htco : r.checkoutOk target = true)
    (hfrom : currentBranchOrEmpty r ∉ pre)
    (hfromt : currentBranchOrEmpty r ≠ target) :
    (switchBranchWithFallback r (pre ++ target :: post)).1 =
      .switched target false ∧
    (switchBranchWithFallback r (pre ++ target :: post)).2 =
      swfSkipTrace pre ++ [.showRefLocal target, .checkout target] ∧
    (switchBranchWithFallback r (pre ++ target :: post)).2.filter isCheckoutCmd =
      [.checkout target] ∧
    (∀ c ∈ (switchBranchWithFallback r (pre ++ target :: post)).2, ∀ b,
      cmdBranch c = some b → b ∈ pre ∨ b = target) ∧
    (switchBranchWithResult r p n (pre ++ target :: post)).1.success = true ∧
    (switchBranchWithResult r p n (pre ++ target :: post)).1.toBranch = target ∧
    (switchBranchWithResult r p n (pre ++ target :: post)).1.alreadyOnIt = false ∧
    (switchBranchWithResult r p n (pre ++ target :: post)).1.fromRemote = false ∧
    (switchBranchWithResult r p n (pre ++ target :: post)).1.message = "switched" ∧
    (switchBranchWithResult r p n (pre ++ target :: post)).2.filter isCheckoutCmd =
      [.checkout target] ∧
    (∀ c ∈ (switchBranchWithResult r p n (pre ++ target :: post)).2, ∀ b,
      cmdBranch c = some b → b ∈ pre ∨ b = target) := by
  have hswf : switchBranchWithFallback r (pre ++ target :: post) =
      (.switched target false,
        swfSkipTrace pre ++ [.showRefLocal target, .checkout target]) := by
    simp only [switchBranchWithFallback, hrepo, Bool.true_eq_false, if_false]
    rw [swfAux_skip_all r pre (target :: post) none hfetch hpre]
    simp [swfAux, hterr, htloc, htco, withTrace]
  have hswr : switchBranchWithResult r p n (pre ++ target :: post) =
      ({ emptySwitchResult p n (currentBranchOrEmpty r) with
          toBranch := target
          success := true
          message := "switched" },
        (getCurrentBranch r).2 ++
          (swfSkipTrace pre ++ [.showRefLocal target, .checkout target])) := by
    simp only [switchBranchWithResult, hrepo, Bool.true_eq_false, if_false]
    rw [swrAux_skip_all r (emptySwitchResult p n (currentBranchOrEmpty r)) pre
      (target :: post)
      (fun b hb => by
        refine ⟨fun he => hfrom ?_, (hpre b hb).1, (hpre b hb).2.1,
          (hpre b hb).2.2.1, (hpre b hb).2.2.2⟩
        have he2 : currentBranchOrEmpty r = b := he
        exact he2 ▸ hb)]
    simp only [swrAux, emptySwitchResult]
    rw [if_neg hfromt]
    simp [hterr, htloc, htco, withTrace]
  have hhead2 : (getCurrentBranch r).2.filter isCheckoutCmd = [] := by
    by_cases hh : r.headOk <;> simp [getCurrentBranch, hrepo, hh, isCheckoutCmd]
  have hheadb : ∀ c ∈ (getCurrentBranch r).2, ∀ b, cmdBranch c = some b → False := by
    by_cases hh : r.headOk <;>
      simp [getCurrentBranch, hrepo, hh, cmdBranch]
  refine ⟨?_, ?_, ?_, ?_, ?_, ?_, ?_, ?_, ?_, ?_, ?_⟩
  · rw [hswf]
  · rw [hswf]
  · rw [hswf]
    simp [List.filter_append, swfSkipTrace_filter_checkout, isCheckoutCmd]
  · rw [hswf]
    intro c hc b hb
    simp only [List.mem_append] at hc
    rcases hc with hc | hc
    · exact Or.inl (swfSkipTrace_branches pre c hc b hb)
    · simp only [List.mem_cons, List.not_mem_nil, or_false] at hc
      rcases hc with hc | hc <;> subst hc <;>
        simp [cmdBranch] at hb <;> exact Or.inr hb.symm
  · rw [hswr]
  · rw [hswr]
  · rw [hswr]; rfl
  · rw [hswr]; rfl
  · rw [hswr]
  · rw [hswr]
    simp only [List.filter_append, hhead2, swfSkipTrace_filter_checkout]
    simp [isCheckoutCmd]
  · rw [hswr]
    intro c hc b hb
    simp only [List.mem_append] at hc
    rcases hc with hc | hc
    · exact absurd hb (by simpa using hheadb c hc b)
    · rcases hc with hc | hc
      · exact Or.inl (swfSkipTrace_branches pre c hc b hb)
      · simp only [List.mem_cons, List.not_mem_nil, or_false] at hc
        rcases hc with hc | hc <;> subst hc <;>
          simp [cmdBranch] at hb <;> exact Or.inr hb.symm

/-- C1 witness: with candidates feature/x, develop, main, where only
develop exists (locally), both resolver variants check out exactly develop
and never mention main. -/
theorem resolution_first_match_wins_witness :
    (repoDevOnly.isRepo = true ∧ repoDevOnly.fetchOk = true ∧
      (∀ b ∈ ["feature/x"], repoDevOnly.refCheckErr b = false ∧
        b ∉ repoDevOnly.localBranches ∧
        repoDevOnly.remoteRefCheckErr b = false ∧
        b ∉ repoDevOnly.remoteBranches) ∧
      repoDevOnly.refCheckErr "develop" = false ∧
      "develop" ∈ repoDevOnly.localBranches ∧
      repoDevOnly.checkoutOk "develop" = true ∧
      currentBranchOrEmpty repoDevOnly ∉ ["feature/x"] ∧
      currentBranchOrEmpty repoDevOnly ≠ "develop") ∧
    (switchBranchWithFallback repoDevOnly ["feature/x", "develop", "main"]).1 =
      .switched "develop" false ∧
    (switchBranchWithFallback repoDevOnly ["feature/x", "develop", "main"]).2.filter
      isCheckoutCmd = [.checkout "develop"] ∧
    (switchBranchWithResult repoDevOnly "r1" "r1"
      ["feature/x", "develop", "main"]).1.success = true ∧
    (switchBranchWithResult repoDevOnly "r1" "r1"
      ["feature/x", "develop", "main"]).1.toBranch = "develop" ∧
    (switchBranchWithResult repoDevOnly "r1" "r1"
      ["feature/x", "develop", "main"]).2.filter isCheckoutCmd =
      [.checkout "develop"] := by
  have h := resolution_first_match_wins repoDevOnly "r1" "r1" "develop"
    ["feature/x"] ["main"] (by decide) (by decide) (by decide) (by decide)
    (by decide) (by decide) (by decide) (by decide)
  exact ⟨⟨by decide, by decide, by decide, by decide, by decide, by decide,
    by decide, by decide⟩, h.1, h.2.2.1, h.2.2.2.2.1, h.2.2.2.2.2.1,
    h.2.2.2.2.2.2.2.2.2.1⟩
